import Mathlib

/-!
Shallow embedding of the go-rst reStructuredText parser core
(apparentlymart/go-rst): the line framer (src/parser/line_scanner.go),
the indentation-aware Scanner and the structural-model parser
(src/parser.go, the revision carrying block quotes and enumerated
lists), together with theorems checking the specification claims.

Strings are modelled as lists of Unicode code points; byte lengths are
recovered where the Go code slices by byte offset (UTF-8 sizes).
-/

namespace GoRst

/-- Convert a Lean string literal to the character-list representation
used throughout this development. -/
def chars (s : String) : List Char := s.data

/-- Number of bytes of the UTF-8 encoding of a code point
(Go `utf8.RuneLen` for valid runes). -/
def utf8Size (c : Char) : Nat :=
  if c.toNat < 0x80 then 1
  else if c.toNat < 0x800 then 2
  else if c.toNat < 0x10000 then 3
  else 4

/-- Go `utf8.RuneError`, the Unicode replacement character. -/
def runeError : Char := '�'

/-- Go `utf8.DecodeRuneInString`: first code point and its byte width;
an empty string yields `(RuneError, 0)`. -/
def decodeRuneInList : List Char → Char × Nat
  | [] => (runeError, 0)
  | c :: _ => (c, utf8Size c)

/-- Go `unicode.IsSpace`: the Unicode white-space code points. -/
def isSpaceGo (c : Char) : Bool :=
  let n := c.toNat
  n == 0x09 || n == 0x0A || n == 0x0B || n == 0x0C || n == 0x0D || n == 0x20 ||
  n == 0x85 || n == 0xA0 || n == 0x1680 ||
  (0x2000 ≤ n && n ≤ 0x200A) ||
  n == 0x2028 || n == 0x2029 || n == 0x202F || n == 0x205F || n == 0x3000

/-- Go `strings.TrimSpace`: strip white space from both ends. -/
def trimSpaceGo (l : List Char) : List Char :=
  ((l.dropWhile isSpaceGo).reverse.dropWhile isSpaceGo).reverse

/-- Drop the first `n` bytes of a string, expressed on code points
(Go slicing `s[n:]`; the parser only slices at rune boundaries). -/
def dropBytes : List Char → Nat → List Char
  | l, 0 => l
  | [], _ => []
  | c :: rest, n => dropBytes rest (n - utf8Size c)

/-- `n` space characters (Go `strings.Repeat(" ", n)`). -/
def spaces (n : Nat) : List Char := List.replicate n ' '

/-! ## Line framer (src/parser/line_scanner.go) -/

/-- The characters `splitRSTLines` strips from the end of each line:
backspace, tab, space, form feed, vertical tab (bytes 8, 9, 32, 12, 11). -/
def isRSTTrailingSpace (c : Char) : Bool :=
  c.toNat == 8 || c.toNat == 9 || c.toNat == 32 || c.toNat == 12 || c.toNat == 11

/-- Trailing-whitespace strip performed by `splitRSTLines` on each framed
line (the `Loop` in src/parser/line_scanner.go). -/
def rstTrimRight (l : List Char) : List Char :=
  (l.reverse.dropWhile isRSTTrailingSpace).reverse

/-- Go `bufio.ScanLines` helper `dropCR`: drop one trailing carriage
return. -/
def dropCR (l : List Char) : List Char :=
  if l.getLast? = some '\r' then l.dropLast else l

/-- Split the input at every newline, keeping all pieces (an input with
`n` newline characters yields `n + 1` pieces). -/
def splitNewlines : List Char → List (List Char)
  | [] => [[]]
  | c :: rest =>
    if c = '\n' then [] :: splitNewlines rest
    else
      match splitNewlines rest with
      | [] => [[c]]
      | p :: ps => (c :: p) :: ps

/-- The token sequence produced by `bufio.Scanner` with `bufio.ScanLines`
before CR-dropping: all newline-separated pieces, except that a final
empty piece (empty input, or input ending in a newline) produces no
token. -/
def scanLinesPieces (input : List Char) : List (List Char) :=
  match (splitNewlines input).getLast? with
  | some [] => (splitNewlines input).dropLast
  | _ => splitNewlines input

/-- The raw line sequence of `bufio.ScanLines` (CR dropped per line). -/
def rawLines (input : List Char) : List (List Char) :=
  (scanLinesPieces input).map dropCR

/-- The framed-line sequence of the parser: `bufio.Scanner` over
`splitRSTLines`, i.e. `ScanLines` plus the RST trailing-whitespace
strip. -/
def framedLines (input : List Char) : List (List Char) :=
  (rawLines input).map rstTrimRight

/-! ## Tokens and the Scanner (src/parser.go, Scanner section) -/

inductive TokenType where
  | INVALID
  | LINE
  | BLANK
  | LITERAL
  | INDENT
  | DEDENT
  | LATE_INDENT
  | EOF
  | ERROR
  deriving DecidableEq, Repr

/-- The generated `TokenType.String` method (stringer). -/
def TokenType.goString : TokenType → List Char
  | .INVALID => chars ("INVALID")
  | .LINE => chars ("LINE")
  | .BLANK => chars ("BLANK")
  | .LITERAL => chars ("LITERAL")
  | .INDENT => chars ("INDENT")
  | .DEDENT => chars ("DEDENT")
  | .LATE_INDENT => chars ("LATE_INDENT")
  | .EOF => chars ("EOF")
  | .ERROR => chars ("ERROR")

structure Position where
  line : Nat
  column : Nat
  filename : List Char
  deriving DecidableEq, Repr

structure Token where
  ty : TokenType
  data : List Char
  position : Position
  deriving DecidableEq, Repr

/-- The Scanner state. The underlying lazy `bufio.Scanner` is modelled by
the list of framed lines not yet consumed plus the read error (if any)
that the line source will report once the lines run out. The Go indent
slice keeps its top at the end; here the head of `indents` is the top of
the stack and the permanent base level 0 sits at the tail end. -/
structure Scanner where
  lines : List (List Char)
  readErr : Option (List Char)
  filename : List Char
  line : Nat
  indents : List Nat
  lateIndent : Bool
  literal : Bool
  lazyIndent : Bool
  peek : Option Token
  nextIndent : Nat
  nextToken : Option Token
  deriving DecidableEq, Repr

/-- `NewScanner`: initial state (indent stack holds the permanent base
level 0). -/
def NewScanner (lines : List (List Char)) (readErr : Option (List Char))
    (filename : List Char) : Scanner :=
  { lines := lines, readErr := readErr, filename := filename, line := 1,
    indents := [0], lateIndent := false, literal := false, lazyIndent := false,
    peek := none, nextIndent := 0, nextToken := none }

/-- `Scanner.currentIndent`: the top of the indent stack. -/
def Scanner.currentIndent (s : Scanner) : Nat := s.indents.headD 0

/-- The leading-indentation loop of `Scanner.scan`: a space advances the
indent by one, a tab advances it to the next multiple of 8; returns the
computed indent and the rest of the line. -/
def scanIndent : List Char → Nat → Nat × List Char
  | [], indent => (indent, [])
  | c :: rest, indent =>
    if c = ' ' then scanIndent rest (indent + 1)
    else if c = '\t' then scanIndent rest (indent + (8 - indent % 8))
    else (indent, c :: rest)

/-- Tail of `Scanner.scan` for a consumed line: blank lines keep the
current indent level and become BLANK; anything else becomes a LINE
token whose column is one past the indentation width. -/
def Scanner.finishLine (s : Scanner) (indent : Nat) (data : List Char)
    (position : Position) : Scanner :=
  let data := trimSpaceGo data
  if data = [] then
    { s with nextIndent := s.currentIndent,
             nextToken := some { ty := .BLANK, data := data, position := position } }
  else
    { s with nextIndent := indent,
             nextToken := some { ty := .LINE, data := data,
                                 position := { position with column := indent + 1 } } }

/-- Body of `Scanner.scan` for one consumed line `whole`: literal-mode
continuation, the trailing `::` literal marker, then `finishLine`. -/
def Scanner.scanLine (s : Scanner) (whole : List Char) (position : Position) : Scanner :=
  let indent := (scanIndent whole 0).1
  let data0 := (scanIndent whole 0).2
  if s.literal ∧ data0 ≠ [] ∧ indent > s.currentIndent then
    { s with nextIndent := s.currentIndent,
             nextToken := some { ty := .LITERAL, data := whole, position := position } }
  else
    if data0.length ≥ 2 ∧ data0.drop (data0.length - 2) = [':', ':'] then
      let s := { s with literal := true }
      if data0.length ≥ 3 then
        let before := data0.getD (data0.length - 3) ' '
        let data1 :=
          if before ≠ ' ' ∧ before ≠ '\t' then data0.take (data0.length - 1)
          else data0.take (data0.length - 2)
        s.finishLine indent data1 position
      else
        { s with nextIndent := indent,
                 nextToken := some { ty := .BLANK, data := [], position := position } }
    else
      s.finishLine indent data0 position

/-- `Scanner.scan`: ensure `nextToken`/`nextIndent` are populated. Once
the line source is exhausted, produces ERROR (when the source failed) or
EOF (with `nextIndent` 0 so that trailing DEDENTs are emitted first). -/
def Scanner.scan (s : Scanner) : Scanner :=
  match s.nextToken with
  | some _ => s
  | none =>
    let position : Position := { line := s.line, column := 1, filename := s.filename }
    match s.lines with
    | whole :: restLines =>
      let s := { s with lines := restLines, line := s.line + 1 }
      s.scanLine whole position
    | [] =>
      match s.readErr with
      | some e =>
        { s with nextIndent := s.currentIndent,
                 nextToken := some { ty := .ERROR, data := e, position := position } }
      | none =>
        { s with nextIndent := 0,
                 nextToken := some { ty := .EOF, data := [], position := position } }

/-- Type of the pending `nextToken` (INVALID when absent; `scan` always
populates it, so the absent case is unreachable in runs). -/
def Scanner.nextTokenTy (s : Scanner) : TokenType :=
  match s.nextToken with
  | some t => t.ty
  | none => .INVALID

/-- Position of the pending `nextToken`. -/
def Scanner.nextTokenPos (s : Scanner) : Position :=
  match s.nextToken with
  | some t => t.position
  | none => { line := s.line, column := 1, filename := s.filename }

/-- `Scanner.PushIndent`: push a synthetic indent level `n` columns past
the current top. (The Go method panics when a peeked token is
outstanding; that assertion is modelled at the parser call sites.) -/
def Scanner.PushIndent (s : Scanner) (n : Nat) : Scanner :=
  { s with indents := (s.currentIndent + n) :: s.indents }

/-- `Scanner.LazyIndent`: arm the lazy-indent flag. (Peek assertion
modelled at call sites, as for `PushIndent`.) -/
def Scanner.LazyIndent (s : Scanner) : Scanner :=
  { s with lazyIndent := true }

/-- The indentation-adjusting switch at the end of `Scanner.next`:
deeper pending indent pushes a level and emits INDENT (or LATE_INDENT if
the late-indent flag is pending); shallower pops exactly one level and
emits DEDENT, arming the late-indent flag when the pending indent lands
strictly between two stack levels; otherwise the real pending token is
emitted. -/
def Scanner.emit (s : Scanner) : Token × Scanner :=
  if s.nextIndent > s.currentIndent then
    let s1 := { s with indents := s.nextIndent :: s.indents }
    let pos : Position := { line := s.nextTokenPos.line, column := 1,
                            filename := s.nextTokenPos.filename }
    if s1.lateIndent then
      ({ ty := .LATE_INDENT, data := spaces s.nextIndent, position := pos },
       { s1 with lateIndent := false })
    else
      ({ ty := .INDENT, data := spaces s.nextIndent, position := pos }, s1)
  else if s.nextIndent < s.currentIndent then
    let s1 := { s with indents := s.indents.tail }
    let s2 := if s.nextIndent > s1.currentIndent then { s1 with lateIndent := true } else s1
    ({ ty := .DEDENT, data := [], position := s.nextTokenPos }, s2)
  else
    match s.nextToken with
    | some t => (t, { s with nextToken := none })
    | none => ({ ty := .INVALID, data := [], position := s.nextTokenPos }, s)

/-- `Scanner.next`: sync via `scan`, then handle a pending lazy indent
(a synthetic DEDENT when the next token does not begin a deeper plain
line, otherwise a silent `PushIndent` of the new level), then emit. -/
def Scanner.next (s0 : Scanner) : Token × Scanner :=
  let s := s0.scan
  if s.lazyIndent then
    let s := { s with lazyIndent := false }
    if s.nextTokenTy ≠ .LINE ∨ s.nextIndent ≤ s.currentIndent then
      ({ ty := .DEDENT, data := [], position := s.nextTokenPos }, s)
    else
      (s.PushIndent s.nextIndent).emit
  else
    s.emit

/-- `Scanner.Peek`: materialize the one-token lookahead buffer if empty
and return the buffered token. -/
def Scanner.Peek (s : Scanner) : Token × Scanner :=
  match s.peek with
  | some t => (t, s)
  | none => ((s.next).1, { (s.next).2 with peek := some (s.next).1 })

/-- `Scanner.Read`: return the next token, consuming it. -/
def Scanner.Read (s : Scanner) : Token × Scanner :=
  ((s.Peek).1, { (s.Peek).2 with peek := none })

/-- Modelled from the spec: `Scanner.SkipBlanks` is called by the parser
(src/parser.go) but its definition is not under src/. Per the spec the
parser skips blank lines between block constructs, so SkipBlanks reads
tokens while the next token is a BLANK; fuel bounds the loop and `none`
reports fuel exhaustion. -/
def Scanner.SkipBlanks (s : Scanner) : Nat → Option Scanner
  | 0 => none
  | fuel + 1 =>
    if (s.Peek).1.ty = .BLANK then Scanner.SkipBlanks (((s.Peek).2.Read).2) fuel
    else some (s.Peek).2

/-- Modelled from the spec: `Scanner.Eat` is called by the parser
(src/parser.go, attribution handling) but its definition is not under
src/; it consumes the next token when it has the given type (the call
site guards with Peek, so only the consuming case is exercised). -/
def Scanner.Eat (s : Scanner) (ty : TokenType) : Scanner :=
  if (s.Peek).1.ty = ty then ((s.Peek).2.Read).2 else (s.Peek).2

/-- Modelled from the spec: `Scanner.PushBackSuffix` is called by the
parser (src/parser.go) but its definition is not under src/. Per the
spec the parser pushes back the remainder of a just-read marker line,
with its first `n` bytes removed, as if it were a fresh LINE at the new
indent level; the token lands in the lookahead buffer so the following
Peek or Read returns it. -/
def Scanner.PushBackSuffix (s : Scanner) (t : Token) (n : Nat) : Scanner :=
  { s with peek := some { ty := .LINE, data := dropBytes t.data n,
                          position := { t.position with column := t.position.column + n } } }

/-! ## Document tree (body.go, list.go, structure.go, text types) -/

inductive EnumTypeGo where
  | arabic
  | lowerAlpha
  | upperAlpha
  | lowerRoman
  | upperRoman
  deriving DecidableEq, Repr

/-- Inline markup elements; the placeholder inline parser only produces
`CharData`. -/
inductive InlineElem where
  | charData (s : List Char)
  deriving DecidableEq, Repr

/-- Body elements. A `ListItem` owns its body, so list items are the
bodies themselves; `errorNode` is the `Error` element; the Go
`BlockQuote.Attribution` is nil or a `Text`, modelled as an option. -/
inductive BodyElem where
  | paragraph (text : List InlineElem)
  | blockQuote (quote : List BodyElem) (attribution : Option (List InlineElem))
  | bulletList (items : List (List BodyElem))
  | enumeratedList (items : List (List BodyElem)) (enumType : EnumTypeGo)
      (pfx : List Char) (sfx : List Char) (firstIndex : Nat)
  | errorNode (message : List Char) (pos : Position)
  deriving Repr

/-- `Fragment`: body elements followed by structure elements. In the
embedded revision the structure sequence can only ever receive `Error`
elements, so it is represented with the same element type. -/
structure Fragment where
  body : List BodyElem
  childElements : List BodyElem
  deriving Repr

mutual

/-- Erase every position in a body element (positions do not influence
control flow, and the claims are about tree shape and content). -/
def scrubElem : BodyElem → BodyElem
  | .paragraph t => .paragraph t
  | .blockQuote q a => .blockQuote (scrubBody q) a
  | .bulletList items => .bulletList (scrubItems items)
  | .enumeratedList items et p sfx fi => .enumeratedList (scrubItems items) et p sfx fi
  | .errorNode m _ => .errorNode m { line := 0, column := 0, filename := [] }

/-- Position-erased view of a list of body elements. -/
def scrubBody : List BodyElem → List BodyElem
  | [] => []
  | e :: r => scrubElem e :: scrubBody r

/-- Position-erased view of a list of list items. -/
def scrubItems : List (List BodyElem) → List (List BodyElem)
  | [] => []
  | i :: r => scrubBody i :: scrubItems r

end

/-! ## List-marker detection (src/parser.go) -/

/-- The fixed bullet glyph set of `detectBulletListItem`. -/
def bulletChars : List Char := ['*', '+', '-', '•', '‣', '⁃']

/-- `detectBulletListItem`: a LINE whose first rune is a bullet glyph
followed by end-of-line or a space is a bullet item; returns the marker
rune and the byte indent for continuation lines, or `('\x00', 0)`. -/
def detectBulletListItem (next : Token) : Char × Nat :=
  if next.ty ≠ .LINE then (Char.ofNat 0, 0)
  else
    let firstChar := (decodeRuneInList next.data).1
    let firstCharLen := (decodeRuneInList next.data).2
    if bulletChars.contains firstChar then
      let nextChar := (decodeRuneInList (next.data.drop 1)).1
      let nextCharLen := (decodeRuneInList (next.data.drop 1)).2
      if nextChar = runeError then (firstChar, firstCharLen)
      else if isSpaceGo nextChar then (firstChar, firstCharLen + nextCharLen)
      else (Char.ofNat 0, 0)
    else (Char.ofNat 0, 0)

inductive EnumSeqGo where
  | invalid
  | arabic
  | alphaUpper
  | alphaLower
  | romanUpper
  | romanLower
  deriving DecidableEq, Repr

inductive EnumMarkerGo where
  | invalid
  | period
  | parens
  | rparen
  deriving DecidableEq, Repr

/-- The Go byte test `c >= '0' && c <= '9'`. -/
def isDigitGo (c : Char) : Bool := '0' ≤ c && c ≤ '9'

/-- The digit-scanning loop of `detectEnumeratedListItem`, exactly as in
the source: `end` is incremented both inside the loop body and by the
for-statement, so only every second index of `remain` is inspected.
Returns the final value of `end`: starting from index 0, while the
inspected index holds a digit, advance by two; stop at the first even
index holding a non-digit or lying at or past the end of the string. -/
def enumDigitsEnd : List Char → Nat
  | [] => 0
  | c :: rest =>
    if isDigitGo c then
      2 + (match rest with
           | [] => 0
           | _ :: rest2 => enumDigitsEnd rest2)
    else 0

/-- Go `strconv.Atoi` restricted to what the detector feeds it: fails on
an empty string or any non-digit character. -/
def atoiGo (l : List Char) : Option Nat :=
  if l = [] then none
  else if l.all isDigitGo then
    some (l.foldl (fun acc c => 10 * acc + (c.toNat - 48)) 0)
  else none

/-- `detectEnumeratedListItem`: optional `(`, digits (via the
double-increment loop above), closing `.` or `)` (a leading `(`
requiring `)`), then end-of-line or a space; returns sequence kind,
marker style, ordinal and byte indent, or all-invalid. -/
def detectEnumeratedListItem (next : Token) :
    EnumSeqGo × EnumMarkerGo × Nat × Nat :=
  let fail := (EnumSeqGo.invalid, EnumMarkerGo.invalid, 0, 0)
  if next.ty ≠ .LINE then fail
  else if next.data.length < 2 then fail
  else
    let (marker0, indent0, remain1) :=
      match next.data with
      | '(' :: rest => (EnumMarkerGo.parens, 1, rest)
      | l => (EnumMarkerGo.invalid, 0, l)
    match remain1 with
    | [] => fail
    | first :: _ =>
      if isDigitGo first then
        let e := enumDigitsEnd remain1
        let indent1 := indent0 + e - 1
        let num := remain1.take (e - 1)
        let remain2 := remain1.drop (e - 1)
        match atoiGo num with
        | none => fail
        | some ordinal =>
          match remain2 with
          | [] => fail
          | closePunct :: remain3 =>
            let marker1 : Option EnumMarkerGo :=
              if marker0 = EnumMarkerGo.parens then
                if closePunct = ')' then some EnumMarkerGo.parens else none
              else if closePunct = ')' then some EnumMarkerGo.rparen
              else if closePunct = '.' then some EnumMarkerGo.period
              else none
            match marker1 with
            | none => fail
            | some marker2 =>
              let indent2 := indent1 + 1
              match remain3 with
              | [] => (EnumSeqGo.arabic, marker2, ordinal, indent2)
              | c :: _ =>
                if c ≠ ' ' then fail
                else (EnumSeqGo.arabic, marker2, ordinal, indent2 + 1)
      else fail

/-! ## The structural-model parser (src/parser.go) -/

/-- Result of a (fuel-bounded) parser run: a value, a Go runtime panic,
or fuel exhaustion. -/
inductive PRes (α : Type) where
  | ok (a : α)
  | panicked (msg : List Char)
  | fuelOut
  deriving Repr

/-- Map over the value of a parser result. -/
def PRes.map (f : α → β) : PRes α → PRes β
  | .ok a => .ok (f a)
  | .panicked m => .panicked m
  | .fuelOut => .fuelOut

/-- One accumulating block quote of `parseBlockQuotes` (the Go code
keeps a pointer `current` into the `quotes` slice). -/
structure BQuoteAcc where
  quote : List BodyElem
  attribution : Option (List InlineElem)
  deriving Repr

/-- The state of `structureModelParser`, one variant per configuration
of its reassignable callbacks: the top-level structure model (with its
one-way body-to-structure transition flag), a plain body scope, and the
block-quote scope with its finished quotes and current quote. -/
inductive MState where
  | structureModel (body : List BodyElem) (structureAcc : List BodyElem) (transitioned : Bool)
  | bodyCtx (body : List BodyElem)
  | blockQuotes (done : List BQuoteAcc) (current : Option BQuoteAcc)
  deriving Repr

/-- Build an `Error` body element. -/
def errBody (msg : List Char) (pos : Position) : BodyElem := .errorNode msg pos

/-- The `appendBody` callback of each configuration. -/
def MState.appendBody (st : MState) (e : BodyElem) (pos : Position) : MState :=
  match st with
  | .structureModel b sa tr =>
    if tr then
      .structureModel b (sa ++ [errBody (chars ("body elements may not appear after sections")) pos]) tr
    else .structureModel (b ++ [e]) sa tr
  | .bodyCtx b => .bodyCtx (b ++ [e])
  | .blockQuotes done cur =>
    let c := cur.getD { quote := [], attribution := none }
    .blockQuotes done (some { c with quote := c.quote ++ [e] })

/-- The `blockQuoteBody` callback: wrap everything accumulated so far in
the current destination in a fresh `BlockQuote`. -/
def MState.blockQuoteBody (st : MState) (pos : Position) : MState :=
  match st with
  | .structureModel b sa tr =>
    if tr then
      .structureModel b (sa ++ [errBody (chars ("block quote cannot terminate here")) pos]) tr
    else .structureModel [.blockQuote b none] sa tr
  | .bodyCtx b => .bodyCtx [.blockQuote b none]
  | .blockQuotes done cur =>
    let c := cur.getD { quote := [], attribution := none }
    .blockQuotes done (some { c with quote := [.blockQuote c.quote none] })

/-- The `appendStructure` callback (never reached in this revision: no
structural element is ever produced); kept for fidelity. In the
structure model it performs the one-way transition. -/
def MState.appendStructureElem (st : MState) (e : BodyElem) (pos : Position) : MState :=
  match st with
  | .structureModel b sa _ => .structureModel b (sa ++ [e]) true
  | .bodyCtx b => .bodyCtx (b ++ [errBody (chars ("structure elements may not appear here")) pos])
  | .blockQuotes _ _ =>
    st.appendBody (errBody (chars ("structure elements may not appear here")) pos) pos

/-- The `appendMixed` callback: body destination before the transition,
structure destination after it. -/
def MState.appendMixed (st : MState) (e : BodyElem) (pos : Position) : MState :=
  match st with
  | .structureModel b sa tr =>
    if tr then .structureModel b (sa ++ [e]) tr else .structureModel (b ++ [e]) sa tr
  | .bodyCtx _ => st.appendBody e pos
  | .blockQuotes _ _ => st.appendBody e pos

/-- Whether `appendAttribution` is non-nil (only in block-quote
bodies). -/
def MState.attributionEnabled : MState → Bool
  | .blockQuotes _ _ => true
  | _ => false

/-- The `appendAttribution` callback of `parseBlockQuotes`: assign the
attribution of the current quote and end it. When no current quote
exists the Go code dereferences a nil pointer. -/
def MState.appendAttribution (st : MState) (t : List InlineElem) : PRes MState :=
  match st with
  | .blockQuotes done (some c) =>
    .ok (.blockQuotes (done ++ [{ c with attribution := some t }]) none)
  | .blockQuotes _ none =>
    .panicked (chars ("runtime error: invalid memory address or nil pointer dereference"))
  | _ => .panicked (chars ("call of nil function value"))

/-- `Scanner.PushIndent` with its active-peek assertion, as invoked from
the parser. -/
def pushIndentChecked (s : Scanner) (n : Nat) : PRes Scanner :=
  if s.peek ≠ none then .panicked (chars ("cannot call PushIndent with an active peek"))
  else .ok (s.PushIndent n)

/-- `parseText`: accumulate consecutive LINE tokens as `CharData` (the
placeholder inline parser). -/
def parseText (fuel : Nat) (acc : List InlineElem) (s : Scanner) :
    PRes (List InlineElem × Scanner) :=
  match fuel with
  | 0 => .fuelOut
  | f + 1 =>
    let nextTok := (s.Peek).1
    let s1 := (s.Peek).2
    if nextTok.ty ≠ .LINE then .ok (acc, s1)
    else parseText f (acc ++ [.charData (s1.Read).1.data]) ((s1.Read).2)

/-- Build the `EnumeratedList` element at the end of
`parseEnumeratedList` (the enum-type and marker switches, both of which
panic on the invalid value). -/
def enumListNode (items : List (List BodyElem)) (seq : EnumSeqGo)
    (marker : EnumMarkerGo) (start : Nat) : PRes BodyElem :=
  let et : Option EnumTypeGo :=
    match seq with
    | .arabic => some .arabic
    | .alphaUpper => some .upperAlpha
    | .alphaLower => some .lowerAlpha
    | .romanUpper => some .upperRoman
    | .romanLower => some .lowerRoman
    | .invalid => none
  match et with
  | none => .panicked (chars ("invalid enum seq"))
  | some et =>
    match marker with
    | .period => .ok (.enumeratedList items et [] ['.'] start)
    | .parens => .ok (.enumeratedList items et ['('] [')'] start)
    | .rparen => .ok (.enumeratedList items et [] [')'] start)
    | .invalid => .panicked (chars ("invalid enum marker"))

mutual

/-- The dispatch loop `structureModelParser.parse`, fuel-bounded. The
branch order follows the source: terminator, EOF, INDENT (block
quotes), LATE_INDENT (restructure), attribution (when enabled), bullet
list, enumerated list, plain paragraph, and the unexpected-token
fallback. -/
def modelParse (fuel : Nat) (endType : TokenType) (st : MState) (s : Scanner) :
    PRes (MState × Scanner) :=
  match fuel with
  | 0 => .fuelOut
  | f + 1 =>
    match s.SkipBlanks (f + 1) with
    | none => .fuelOut
    | some s0 =>
      let nextTok := (s0.Peek).1
      let s := (s0.Peek).2
      if nextTok.ty = endType then
        .ok (st, (s.Read).2)
      else if nextTok.ty = .EOF then
        .ok (st.appendMixed (errBody (chars ("unexpected EOF")) nextTok.position)
              nextTok.position, s)
      else if nextTok.ty = .INDENT then
        match parseBlockQuotes f .DEDENT s with
        | .ok (quotes, s) =>
          let st := quotes.foldl (fun acc e => acc.appendBody e nextTok.position) st
          modelParse f endType st s
        | .panicked m => .panicked m
        | .fuelOut => .fuelOut
      else if nextTok.ty = .LATE_INDENT then
        modelParse f endType (st.blockQuoteBody nextTok.position) (s.Read).2
      else if st.attributionEnabled ∧ nextTok.ty = .LINE ∧
              nextTok.data.take 2 = ['-', '-'] ∧
              isSpaceGo (decodeRuneInList (nextTok.data.drop 2)).1 then
        let ncLen := (decodeRuneInList (nextTok.data.drop 2)).2
        let firstLine := (s.Read).1
        let s := (s.Read).2
        let startPos := firstLine.position
        match pushIndentChecked s (ncLen + 2) with
        | .ok s =>
          let s := s.PushBackSuffix firstLine (ncLen + 2)
          match parseText f [] s with
          | .ok (attribution, s) =>
            let pk := (s.Peek).1
            let s := (s.Peek).2
            let st1 :=
              if pk.ty = .DEDENT then st
              else st.appendMixed (errBody (chars ("missing dedent after attribution")) startPos)
                     startPos
            let s :=
              if pk.ty = .DEDENT then s.Eat .DEDENT else s
            match st1.appendAttribution attribution with
            | .ok st => modelParse f endType st s
            | .panicked m => .panicked m
            | .fuelOut => .fuelOut
          | .panicked m => .panicked m
          | .fuelOut => .fuelOut
        | .panicked m => .panicked m
        | .fuelOut => .fuelOut
      else if (detectBulletListItem nextTok).1 ≠ Char.ofNat 0 then
        match parseBulletList f (detectBulletListItem nextTok).1 [] s with
        | .ok (listElem, s) =>
          modelParse f endType (st.appendBody listElem nextTok.position) s
        | .panicked m => .panicked m
        | .fuelOut => .fuelOut
      else if (detectEnumeratedListItem nextTok).1 ≠ EnumSeqGo.invalid then
        let seq := (detectEnumeratedListItem nextTok).1
        let marker := (detectEnumeratedListItem nextTok).2.1
        let start := (detectEnumeratedListItem nextTok).2.2.1
        match parseEnumeratedList f seq marker start start [] s with
        | .ok (listElem, s) =>
          modelParse f endType (st.appendBody listElem nextTok.position) s
        | .panicked m => .panicked m
        | .fuelOut => .fuelOut
      else if nextTok.ty = .LINE then
        match parseText f [] s with
        | .ok (text, s) =>
          modelParse f endType (st.appendBody (.paragraph text) nextTok.position) s
        | .panicked m => .panicked m
        | .fuelOut => .fuelOut
      else
        modelParse f endType
          (st.appendMixed
            (errBody (chars ("unexpected token: ") ++ nextTok.ty.goString) nextTok.position)
            nextTok.position)
          (s.Read).2

/-- `parseBlockQuotes`: consume the introducing INDENT (panicking, as
the source does, if it is absent), run the inner structure-model loop in
block-quote configuration, and return the accumulated quotes in
creation order. -/
def parseBlockQuotes (fuel : Nat) (endType : TokenType) (s : Scanner) :
    PRes (List BodyElem × Scanner) :=
  match fuel with
  | 0 => .fuelOut
  | f + 1 =>
    let indentTok := (s.Read).1
    let s := (s.Read).2
    if indentTok.ty ≠ .INDENT then
      .panicked (chars ("parseBlockQuote called when block quote cannot start"))
    else
      match modelParse f endType (.blockQuotes [] none) s with
      | .ok (.blockQuotes done cur, s) =>
        .ok ((done ++ cur.toList).map (fun q => BodyElem.blockQuote q.quote q.attribution), s)
      | .ok (_, _) => .panicked (chars ("model state corrupted"))
      | .panicked m => .panicked m
      | .fuelOut => .fuelOut

/-- `parseBody`: the structure-model loop in plain-body configuration. -/
def parseBody (fuel : Nat) (endType : TokenType) (s : Scanner) :
    PRes (List BodyElem × Scanner) :=
  match fuel with
  | 0 => .fuelOut
  | f + 1 =>
    match modelParse f endType (.bodyCtx []) s with
    | .ok (.bodyCtx body, s) => .ok (body, s)
    | .ok (_, _) => .panicked (chars ("model state corrupted"))
    | .panicked m => .panicked m
    | .fuelOut => .fuelOut

/-- The item loop of `parseBulletList` (`items` is the Go local): keep
consuming lines detected with the identical marker, parsing each item
body up to the matching DEDENT. -/
def parseBulletList (fuel : Nat) (marker : Char) (items : List (List BodyElem))
    (s : Scanner) : PRes (BodyElem × Scanner) :=
  match fuel with
  | 0 => .fuelOut
  | f + 1 =>
    match s.SkipBlanks (f + 1) with
    | none => .fuelOut
    | some s0 =>
      let nextTok := (s0.Peek).1
      let s := (s0.Peek).2
      let itemMarker := (detectBulletListItem nextTok).1
      let indent := (detectBulletListItem nextTok).2
      if itemMarker ≠ marker then .ok (.bulletList items, s)
      else
        let firstLine := (s.Read).1
        let s := (s.Read).2
        match pushIndentChecked s indent with
        | .ok s =>
          let s := s.PushBackSuffix firstLine indent
          match parseBody f .DEDENT s with
          | .ok (content, s) => parseBulletList f marker (items ++ [content]) s
          | .panicked m => .panicked m
          | .fuelOut => .fuelOut
        | .panicked m => .panicked m
        | .fuelOut => .fuelOut

/-- The item loop of `parseEnumeratedList`: keep consuming lines with
the same sequence kind, the same marker style and consecutive ordinals;
on the first mismatch build the `EnumeratedList` element. -/
def parseEnumeratedList (fuel : Nat) (seq : EnumSeqGo) (marker : EnumMarkerGo)
    (start : Nat) (nextOrd : Nat) (items : List (List BodyElem)) (s : Scanner) :
    PRes (BodyElem × Scanner) :=
  match fuel with
  | 0 => .fuelOut
  | f + 1 =>
    match s.SkipBlanks (f + 1) with
    | none => .fuelOut
    | some s0 =>
      let nextTok := (s0.Peek).1
      let s := (s0.Peek).2
      let itemSeq := (detectEnumeratedListItem nextTok).1
      let itemMarker := (detectEnumeratedListItem nextTok).2.1
      let ord := (detectEnumeratedListItem nextTok).2.2.1
      let indent := (detectEnumeratedListItem nextTok).2.2.2
      if itemSeq ≠ seq ∨ itemMarker ≠ marker ∨ ord ≠ nextOrd then
        match enumListNode items seq marker start with
        | .ok e => .ok (e, s)
        | .panicked m => .panicked m
        | .fuelOut => .fuelOut
      else
        let firstLine := (s.Read).1
        let s := (s.Read).2
        match pushIndentChecked s indent with
        | .ok s =>
          let s := s.PushBackSuffix firstLine indent
          match parseBody f .DEDENT s with
          | .ok (content, s) =>
            parseEnumeratedList f seq marker start (nextOrd + 1) (items ++ [content]) s
          | .panicked m => .panicked m
          | .fuelOut => .fuelOut
        | .panicked m => .panicked m
        | .fuelOut => .fuelOut

end

/-- `parser.parseStructureModel`: the loop in top-level configuration,
returning the body and structure sequences. -/
def parseStructureModel (fuel : Nat) (endType : TokenType) (s : Scanner) :
    PRes ((List BodyElem × List BodyElem) × Scanner) :=
  match fuel with
  | 0 => .fuelOut
  | f + 1 =>
    match modelParse f endType (.structureModel [] [] false) s with
    | .ok (.structureModel b sa _, s) => .ok ((b, sa), s)
    | .ok (_, _) => .panicked (chars ("model state corrupted"))
    | .panicked m => .panicked m
    | .fuelOut => .fuelOut

/-- `parser.ParseFragment` on an already-framed token source. -/
def ParseFragmentTokens (fuel : Nat) (lines : List (List Char))
    (readErr : Option (List Char)) (filename : List Char) : PRes Fragment :=
  match parseStructureModel fuel .EOF (NewScanner lines readErr filename) with
  | .ok ((b, sa), _) => .ok { body := b, childElements := sa }
  | .panicked m => .panicked m
  | .fuelOut => .fuelOut

/-- `ParseFragment`: frame the input, build a scanner, parse up to EOF. -/
def ParseFragment (fuel : Nat) (input : List Char) (filename : List Char) : PRes Fragment :=
  ParseFragmentTokens fuel (framedLines input) none filename

/-! ## Auxiliary notions for the claim theorems -/

/-- `n + 1` consecutive Peek calls: token and state after the last one. -/
def peekN : Nat → Scanner → Token × Scanner
  | 0, s => s.Peek
  | n + 1, s => (peekN n s).2.Peek

/-- The `n`-th token of consecutive Read calls (0-based) and the state
after it. -/
def readN : Nat → Scanner → Token × Scanner
  | 0, s => s.Read
  | n + 1, s => readN n ((s.Read).2)

/-- Scanner states reachable from an initial scanner (over any input and
any read-error outcome) through the public operations, with the
no-outstanding-peek precondition on the indent feedback calls. -/
inductive Reach : Scanner → Prop where
  | init (lines : List (List Char)) (readErr : Option (List Char)) (filename : List Char) :
      Reach (NewScanner lines readErr filename)
  | readStep {s : Scanner} : Reach s → Reach ((s.Read).2)
  | peekStep {s : Scanner} : Reach s → Reach ((s.Peek).2)
  | pushIndentStep {s : Scanner} (n : Nat) : Reach s → s.peek = none → Reach (s.PushIndent n)
  | lazyIndentStep {s : Scanner} : Reach s → s.peek = none → Reach s.LazyIndent

/-- The indent stack is intact: nonempty with the permanent base level 0
at its bottom. -/
def stackOK (s : Scanner) : Prop :=
  s.indents ≠ [] ∧ s.indents.getLast? = some 0

mutual

/-- Every list node in the element has at least one item. -/
def goodElem : BodyElem → Bool
  | .paragraph _ => true
  | .errorNode _ _ => true
  | .blockQuote q _ => goodBody q
  | .bulletList items => !items.isEmpty && goodItems items
  | .enumeratedList items _ _ _ _ => !items.isEmpty && goodItems items

/-- Every list node in the body has at least one item. -/
def goodBody : List BodyElem → Bool
  | [] => true
  | e :: r => goodElem e && goodBody r

/-- Every list node in the items has at least one item. -/
def goodItems : List (List BodyElem) → Bool
  | [] => true
  | i :: r => goodBody i && goodItems r

end

/-- Well-formedness of an accumulating block quote. -/
def goodBQ (q : BQuoteAcc) : Bool := goodBody q.quote

/-- Well-formedness of a parse-loop state. -/
def goodMState : MState → Bool
  | .structureModel b sa _ => goodBody b && goodBody sa
  | .bodyCtx b => goodBody b
  | .blockQuotes done cur =>
    done.all goodBQ && (match cur with | some c => goodBQ c | none => true)

/-- Concrete scanner used to witness theorems with hypotheses. -/
def witnessScanner : Scanner := NewScanner [chars ("hello")] none []

/-- Expected scrubbed body for the enumerated-list example of C3. -/
def c3Expected : List BodyElem :=
  [.enumeratedList [[.paragraph [.charData (chars ("foo"))]],
                    [.paragraph [.charData (chars ("bar"))]]] .arabic [] ['.'] 1,
   .enumeratedList [[.paragraph [.charData (chars ("baz"))]]] .arabic ['('] [')'] 3,
   .enumeratedList [[.paragraph [.charData (chars ("pizza"))]]] .arabic ['('] [')'] 5,
   .enumeratedList [[.paragraph [.charData (chars ("cheese"))]]] .arabic [] [')'] 6]

/-! ## Theorems -/

theorem Peek_of_peek (s : Scanner) (t : Token) (h : s.peek = some t) : s.Peek = (t, s) := by
  simp [Scanner.Peek, h]

theorem Peek_peek_eq (s : Scanner) : (s.Peek).2.peek = some (s.Peek).1 := by
  unfold Scanner.Peek
  cases h : s.peek <;> simp [h]

theorem skipBlanks_peeked (s : Scanner) (t : Token) (f : Nat) (hp : s.peek = some t)
    (hb : t.ty ≠ .BLANK) : s.SkipBlanks (f + 1) = some s := by
  rw [Scanner.SkipBlanks, Peek_of_peek s t hp]
  simp [hb]

/-- C1: parsing `"    nested-blockquote\n  baz"` is claimed to yield exactly
one outer BlockQuote containing an inner BlockQuote (paragraph
`nested-blockquote`) followed by a sibling paragraph `baz`, with empty
structure and no Error nodes. The code in src actually emits the DEDENT
terminating the block quote before the LATE_INDENT, so the restructuring
happens one scope too high: the result wraps the quote a second time, leaves
the paragraph `baz` at top level and appends an `unexpected token: DEDENT`
Error node. This theorem evaluates the embedded parser at that input. -/
theorem C1_late_indent_actual_tree :
    PRes.map (fun fr => (scrubBody fr.body, fr.childElements))
      (ParseFragment 64 (chars ("    nested-blockquote\n  baz")) []) =
    .ok ([.blockQuote [.blockQuote [.paragraph [.charData (chars ("nested-blockquote"))]] none] none,
          .paragraph [.charData (chars ("baz"))],
          .errorNode (chars ("unexpected token: DEDENT")) { line := 0, column := 0, filename := [] }],
         []) := by
  rfl

/-- C2: ParseFragment is claimed to return a Fragment for every input. The
`appendAttribution` callback of `parseBlockQuotes` dereferences the nil
`current` pointer when an attribution line is the first content of a block
quote, so the input `"    -- attribution"` makes the parser panic instead of
returning a Fragment. This theorem evaluates the embedded parser there. -/
theorem C2_attribution_first_panics :
    ParseFragment 64 (chars ("    -- attribution")) [] =
    .panicked (chars ("runtime error: invalid memory address or nil pointer dereference")) := by
  rfl

/-- C4: detectEnumeratedListItem is claimed to recognize every arabic
ordinal, including multi-digit ones such as `"10. x"`. The digit loop
increments its index twice per iteration, so ordinals with an even number of
digits are rejected outright: `"10. x"` yields the all-invalid result, while
the single-digit `"1. x"` is recognized correctly. -/
theorem C4_multi_digit_ordinal_rejected :
    detectEnumeratedListItem
        { ty := .LINE, data := chars ("10. x"),
          position := { line := 1, column := 1, filename := [] } } =
      (EnumSeqGo.invalid, EnumMarkerGo.invalid, 0, 0) ∧
    detectEnumeratedListItem
        { ty := .LINE, data := chars ("1. x"),
          position := { line := 1, column := 1, filename := [] } } =
      (EnumSeqGo.arabic, EnumMarkerGo.period, 1, 3) := by
  exact ⟨rfl, rfl⟩

theorem splitNewlines_ne_nil (s : List Char) : splitNewlines s ≠ [] := by
  cases s with
  | nil => simp [splitNewlines]
  | cons c rest =>
    simp only [splitNewlines]
    split
    · simp
    · split <;> simp

theorem splitNewlines_append_newline (s : List Char) :
    splitNewlines (s ++ ['\n']) = splitNewlines s ++ [[]] := by
  induction s with
  | nil => rfl
  | cons c rest ih =>
    show splitNewlines (c :: (rest ++ ['\n'])) = _
    by_cases hc : c = '\n'
    · simp only [splitNewlines, if_pos hc, ih]
      rfl
    · simp only [splitNewlines, if_neg hc, ih]
      cases h : splitNewlines rest with
      | nil => exact absurd h (splitNewlines_ne_nil rest)
      | cons q qs => simp [h]

theorem splitNewlines_getLast_ne_nil (s : List Char) (hs : s ≠ [])
    (hn : s.getLast? ≠ some '\n') : (splitNewlines s).getLast? ≠ some [] := by
  induction s with
  | nil => exact absurd rfl hs
  | cons c rest ih =>
    cases rest with
    | nil =>
      have hc : c ≠ '\n' := by simpa using hn
      simp [splitNewlines, hc]
    | cons d rest2 =>
      have hn2 : (d :: rest2).getLast? ≠ some '\n' := by
        simpa using hn
      have ih2 := ih (by simp) hn2
      rw [splitNewlines]
      cases h : splitNewlines (d :: rest2) with
      | nil => exact absurd h (splitNewlines_ne_nil _)
      | cons q qs =>
        rw [h] at ih2
        by_cases hc : c = '\n'
        · rw [if_pos hc]
          simpa using ih2
        · rw [if_neg hc]
          cases qs with
          | nil => simp
          | cons e es => simpa using ih2

theorem dropWhile_head?_not (p : Char → Bool) :
    ∀ (l : List Char) (c : Char), (l.dropWhile p).head? = some c → p c = false := by
  intro l
  induction l with
  | nil => intro c h; simp [List.dropWhile] at h
  | cons a r ih =>
    intro c h
    rw [List.dropWhile_cons] at h
    by_cases hp : p a
    · rw [if_pos hp] at h
      exact ih c h
    · rw [if_neg hp] at h
      simp at h
      subst h
      simpa using hp

/-- C8: the line framer strips exactly a trailing run of space, tab, form
feed, vertical tab and backspace characters from each raw line (only a
suffix is removed, so leading whitespace survives, and what remains never
ends in one of those characters); a completely empty input yields an empty
line sequence; and appending a final newline to a nonempty input that does
not already end in one produces no extra empty line. -/
theorem C8_line_framer :
    (framedLines [] = []) ∧
    (∀ s : List Char, s ≠ [] → s.getLast? ≠ some '\n' →
      framedLines (s ++ ['\n']) = framedLines s) ∧
    (∀ s : List Char, framedLines s = (rawLines s).map rstTrimRight) ∧
    (∀ l : List Char,
      l = rstTrimRight l ++ (l.reverse.takeWhile isRSTTrailingSpace).reverse ∧
      (∀ c ∈ (l.reverse.takeWhile isRSTTrailingSpace).reverse, isRSTTrailingSpace c = true) ∧
      (∀ c, (rstTrimRight l).getLast? = some c → isRSTTrailingSpace c = false)) := by
  refine ⟨rfl, ?_, fun _ => rfl, ?_⟩
  · intro s hs hn
    unfold framedLines rawLines scanLinesPieces
    rw [splitNewlines_append_newline]
    have h1 : (splitNewlines s ++ [[]]).getLast? = some [] := by simp
    simp only [h1, List.dropLast_concat]
    have h2 := splitNewlines_getLast_ne_nil s hs hn
    cases h : (splitNewlines s).getLast? with
    | none => simp only [h]
    | some q =>
      cases q with
      | nil => exact absurd h h2
      | cons a r => simp only [h]
  · intro l
    refine ⟨?_, ?_, ?_⟩
    · rw [rstTrimRight, ← List.reverse_append, List.takeWhile_append_dropWhile,
        List.reverse_reverse]
    · intro c hc
      rw [List.mem_reverse] at hc
      exact List.mem_takeWhile_imp hc
    · intro c h
      rw [rstTrimRight, List.getLast?_reverse] at h
      exact dropWhile_head?_not _ _ _ h

/-- Witness for C8 at concrete inputs, discharging the hypotheses. -/
theorem C8_line_framer_witness :
    framedLines (chars ("ab") ++ ['\n']) = framedLines (chars ("ab")) ∧
    isRSTTrailingSpace 'b' = false :=
  ⟨(C8_line_framer).2.1 (chars ("ab")) (by decide) (by decide),
   ((C8_line_framer).2.2.2 (chars ("ab  "))).2.2 'b' (by decide)⟩

theorem scanLine_frame (s : Scanner) (w : List Char) (p : Position) :
    (s.scanLine w p).indents = s.indents ∧ (s.scanLine w p).lazyIndent = s.lazyIndent ∧
    (s.scanLine w p).peek = s.peek ∧ (s.scanLine w p).lateIndent = s.lateIndent := by
  refine ⟨?_, ?_, ?_, ?_⟩ <;> unfold Scanner.scanLine Scanner.finishLine <;>
    dsimp only <;> (repeat' split) <;> rfl

theorem scan_frame (s : Scanner) :
    (s.scan).indents = s.indents ∧ (s.scan).lazyIndent = s.lazyIndent ∧
    (s.scan).peek = s.peek ∧ (s.scan).lateIndent = s.lateIndent := by
  unfold Scanner.scan
  repeat' split
  · exact ⟨rfl, rfl, rfl, rfl⟩
  · exact scanLine_frame _ _ _
  · exact ⟨rfl, rfl, rfl, rfl⟩
  · exact ⟨rfl, rfl, rfl, rfl⟩

/-- C9: when the lazy-indent flag is armed and, after syncing via `scan`,
the pending token is not a plain LINE indented strictly deeper than the
current top of the indent stack, `next` emits a synthetic DEDENT whose
resulting state is exactly the synced state with the flag cleared — in
particular the indent stack is unchanged, no level is popped. By contrast,
with the flag unarmed, a DEDENT emission triggered by a shallower pending
indent pops exactly one level off the stack. -/
theorem C9_lazy_dedent_frame :
    (∀ s : Scanner, s.lazyIndent = true →
      ((s.scan).nextTokenTy ≠ .LINE ∨ (s.scan).nextIndent ≤ (s.scan).currentIndent) →
      s.next = ({ ty := .DEDENT, data := [], position := (s.scan).nextTokenPos },
                { s.scan with lazyIndent := false }) ∧
      (s.next).2.indents = s.indents) ∧
    (∀ s : Scanner, s.lazyIndent = false →
      (s.scan).nextIndent < (s.scan).currentIndent →
      (s.next).1.ty = .DEDENT ∧ (s.next).2.indents = s.indents.tail ∧
      s.indents.length = (s.next).2.indents.length + 1) := by
  constructor
  · intro s hlazy hcond
    have hf := scan_frame s
    have hlz : (s.scan).lazyIndent = true := by rw [hf.2.1]; exact hlazy
    have heq : s.next = ({ ty := .DEDENT, data := [], position := (s.scan).nextTokenPos },
                         { s.scan with lazyIndent := false }) := by
      unfold Scanner.next
      dsimp only
      rw [hlz]
      rw [if_pos rfl]
      split
      · rfl
      · next hfalse => exact absurd hcond hfalse
    refine ⟨heq, ?_⟩
    rw [heq, ← hf.1]
  · intro s hlazy hlt
    have hf := scan_frame s
    have hlz : (s.scan).lazyIndent = false := by rw [hf.2.1]; exact hlazy
    have hngt : ¬((s.scan).nextIndent > (s.scan).currentIndent) := by omega
    have hemit : (s.next).1.ty = .DEDENT ∧ (s.next).2.indents = (s.scan).indents.tail := by
      unfold Scanner.next
      dsimp only
      rw [hlz]
      simp only [Bool.false_eq_true, if_false]
      unfold Scanner.emit
      dsimp only
      rw [if_neg hngt, if_pos hlt]
      split <;> exact ⟨rfl, rfl⟩
    have hne : s.indents ≠ [] := by
      intro h
      have h0 : (s.scan).currentIndent = 0 := by
        unfold Scanner.currentIndent
        rw [hf.1, h]
        rfl
      rw [h0] at hlt
      exact Nat.not_lt_zero _ hlt
    refine ⟨hemit.1, ?_, ?_⟩
    · rw [hemit.2, hf.1]
    · rw [hemit.2, hf.1, List.length_tail]
      have := List.length_pos.mpr hne
      omega

/-- Witness for C9 at concrete states: an empty-input scanner with the lazy
flag armed (synthetic DEDENT at the base stack), and one with stack [2, 0]
and the flag unarmed (popping DEDENT on end of input). -/
theorem C9_lazy_dedent_frame_witness :
    (((NewScanner [] none []).LazyIndent).next =
      ({ ty := .DEDENT, data := [],
         position := { line := 1, column := 1, filename := [] } },
       { ((NewScanner [] none []).LazyIndent).scan with lazyIndent := false })) ∧
    (({ NewScanner [] none [] with indents := [2, 0] } : Scanner).next).1.ty = .DEDENT ∧
    (({ NewScanner [] none [] with indents := [2, 0] } : Scanner).next).2.indents = [0] :=
  ⟨((C9_lazy_dedent_frame).1 ((NewScanner [] none []).LazyIndent) rfl
      (Or.inl (by decide))).1,
   ((C9_lazy_dedent_frame).2 { NewScanner [] none [] with indents := [2, 0] } rfl
      (by decide)).1,
   ((C9_lazy_dedent_frame).2 { NewScanner [] none [] with indents := [2, 0] } rfl
      (by decide)).2.1⟩

/-- C7: once the line source is exhausted and the trailing DEDENTs have been
emitted (stack back at the base, no pending token or peek, lazy indent not
armed), every subsequent Read returns an EOF token, for every number of
calls, leaving the state fixed; and when the line source failed, every
subsequent Read returns an ERROR token carrying the error text, likewise for
every number of calls. -/
theorem C7_eof_error_streams :
    (∀ s : Scanner, s.lines = [] → s.readErr = none → s.peek = none →
      s.nextToken = none → s.lazyIndent = false → s.indents = [0] → s.nextIndent = 0 →
      ∀ n, readN n s =
        ({ ty := .EOF, data := [],
           position := { line := s.line, column := 1, filename := s.filename } }, s)) ∧
    (∀ (s : Scanner) (e : List Char), s.lines = [] → s.readErr = some e → s.peek = none →
      s.nextToken = none → s.lazyIndent = false → s.nextIndent = s.currentIndent →
      ∀ n, readN n s =
        ({ ty := .ERROR, data := e,
           position := { line := s.line, column := 1, filename := s.filename } }, s)) := by
  constructor
  · intro s h1 h2 h3 h4 h5 h6 h7 n
    obtain ⟨lines, readErr, fn, ln, ind, late, lit, lazy, pk, ni, nt⟩ := s
    dsimp only at h1 h2 h3 h4 h5 h6 h7 ⊢
    subst h1 h2 h3 h4 h5 h6 h7
    induction n with
    | zero => rfl
    | succ n ih =>
      rw [readN]
      exact ih
  · intro s e h1 h2 h3 h4 h5 h6
    obtain ⟨lines, readErr, fn, ln, ind, late, lit, lazy, pk, ni, nt⟩ := s
    dsimp only at h1 h2 h3 h4 h5 h6 ⊢
    subst h1 h2 h3 h4 h5
    unfold Scanner.currentIndent at h6
    dsimp only at h6
    subst h6
    have hread : Scanner.Read
        ⟨[], some e, fn, ln, ind, late, lit, false, none, ind.headD 0, none⟩ =
        ({ ty := .ERROR, data := e, position := { line := ln, column := 1, filename := fn } },
         ⟨[], some e, fn, ln, ind, late, lit, false, none, ind.headD 0, none⟩) := by
      unfold Scanner.Read Scanner.Peek Scanner.next Scanner.scan Scanner.emit
      dsimp only
      simp [Scanner.currentIndent, Nat.lt_irrefl]
    intro n
    induction n with
    | zero => exact hread
    | succ n ih =>
      rw [readN]
      rw [show (Scanner.Read ⟨[], some e, fn, ln, ind, late, lit, false, none,
            ind.headD 0, none⟩).2 =
          ⟨[], some e, fn, ln, ind, late, lit, false, none, ind.headD 0, none⟩ from
        congrArg Prod.snd hread]
      exact ih

/-- Witness for C7 at concrete states, discharging the hypotheses. -/
theorem C7_eof_error_streams_witness :
    (readN 2 (NewScanner [] none []) =
      ({ ty := .EOF, data := [], position := { line := 1, column := 1, filename := [] } },
       NewScanner [] none [])) ∧
    (readN 1 (NewScanner [] (some (chars ("boom"))) []) =
      ({ ty := .ERROR, data := chars ("boom"),
         position := { line := 1, column := 1, filename := [] } },
       NewScanner [] (some (chars ("boom"))) [])) :=
  ⟨(C7_eof_error_streams).1 (NewScanner [] none []) rfl rfl rfl rfl rfl rfl rfl 2,
   (C7_eof_error_streams).2 (NewScanner [] (some (chars ("boom"))) []) (chars ("boom"))
     rfl rfl rfl rfl rfl rfl 1⟩

theorem getLast?_cons_ne_nil {α : Type} (a : α) (l : List α) (h : l ≠ []) :
    (a :: l).getLast? = l.getLast? := by
  cases l with
  | nil => exact absurd rfl h
  | cons b t => exact List.getLast?_cons_cons

theorem emit_indents (s : Scanner) :
    ((s.emit).2).indents = s.nextIndent :: s.indents ∧ s.nextIndent > s.currentIndent ∨
    ((s.emit).2).indents = s.indents.tail ∧ s.nextIndent < s.currentIndent ∨
    ((s.emit).2).indents = s.indents := by
  unfold Scanner.emit
  dsimp only
  split
  · next hgt => split <;> exact Or.inl ⟨rfl, hgt⟩
  · split
    · next _ hlt =>
      refine Or.inr (Or.inl ⟨?_, hlt⟩)
      split <;> rfl
    · split <;> exact Or.inr (Or.inr rfl)

theorem stackOK_emit (s : Scanner) (h : stackOK s) : stackOK ((s.emit).2) := by
  obtain ⟨hne, hlast⟩ := h
  rcases emit_indents s with ⟨heq, _⟩ | ⟨heq, hlt⟩ | heq
  · rw [stackOK, heq, getLast?_cons_ne_nil _ _ hne]
    exact ⟨by simp, hlast⟩
  · cases hi : s.indents with
    | nil => exact absurd hi hne
    | cons a rest =>
      cases rest with
      | nil =>
        have ha : a = 0 := by
          rw [hi] at hlast
          simpa using hlast
        have hcur : s.currentIndent = 0 := by
          unfold Scanner.currentIndent
          rw [hi, ha]
          rfl
        rw [hcur] at hlt
        exact absurd hlt (Nat.not_lt_zero _)
      | cons b t =>
        rw [stackOK, heq, hi]
        rw [hi, List.getLast?_cons_cons] at hlast
        exact ⟨by simp, by simpa using hlast⟩
  · rw [stackOK, heq]
    exact ⟨hne, hlast⟩

theorem stackOK_PushIndent (s : Scanner) (n : Nat) (h : stackOK s) :
    stackOK (s.PushIndent n) := by
  obtain ⟨hne, hlast⟩ := h
  rw [Scanner.PushIndent, stackOK]
  dsimp only
  rw [getLast?_cons_ne_nil _ _ hne]
  exact ⟨by simp, hlast⟩

theorem stackOK_next (s : Scanner) (h : stackOK s) : stackOK ((s.next).2) := by
  have hf := scan_frame s
  have hsc : stackOK (s.scan) := by
    rw [stackOK, hf.1]
    exact h
  unfold Scanner.next
  dsimp only
  split
  · split
    · exact hsc
    · exact stackOK_emit _ (stackOK_PushIndent _ _ hsc)
  · exact stackOK_emit _ hsc

theorem stackOK_Peek (s : Scanner) (h : stackOK s) : stackOK ((s.Peek).2) := by
  unfold Scanner.Peek
  cases hp : s.peek with
  | some t => exact h
  | none =>
    dsimp only
    exact stackOK_next s h

theorem stackOK_Read (s : Scanner) (h : stackOK s) : stackOK ((s.Read).2) := by
  rw [Scanner.Read]
  exact stackOK_Peek s h

/-- The claim of C6, as stated, is false: from the empty input, arming
`LazyIndent` (no peek is outstanding, so the precondition is respected) and
then calling Read emits a DEDENT token at a moment when the indent stack
holds only the permanent base level 0 — the synthetic lazy DEDENT, which
pops nothing. -/
theorem C6_counterexample_lazy_dedent_at_base :
    ((NewScanner [] none []).LazyIndent).indents = [0] ∧
    (((NewScanner [] none []).LazyIndent).Read).1.ty = .DEDENT ∧
    (((NewScanner [] none []).LazyIndent).Read).2.indents = [0] :=
  ⟨rfl, rfl, rfl⟩

/-- C6 (amended): for every reachable Scanner state, the indent stack is
never underflowed: it is always nonempty with the permanent base level 0 at
its bottom, and any token emission (in particular every DEDENT) preserves
that — a popping DEDENT only ever fires with at least two levels on the
stack, while the synthetic lazy DEDENT pops nothing. -/
theorem C6_stack_never_underflows (s : Scanner) (hs : Reach s) :
    stackOK s ∧ (∀ t s2, s.next = (t, s2) → stackOK s2) := by
  have hstack : stackOK s := by
    induction hs with
    | init lines readErr filename => exact ⟨by simp [NewScanner], by simp [NewScanner]⟩
    | readStep h ih => exact stackOK_Read _ ih
    | peekStep h ih => exact stackOK_Peek _ ih
    | pushIndentStep n h hp ih => exact stackOK_PushIndent _ _ ih
    | lazyIndentStep h hp ih => exact ih
  refine ⟨hstack, fun t s2 heq => ?_⟩
  have := stackOK_next s hstack
  rw [heq] at this
  exact this

/-- Witness for the amended C6 at a concrete reachable state. -/
theorem C6_stack_never_underflows_witness :
    stackOK ((NewScanner [chars ("a")] none []).LazyIndent) ∧
    stackOK (((NewScanner [chars ("a")] none []).LazyIndent).next).2 :=
  ⟨(C6_stack_never_underflows ((NewScanner [chars ("a")] none []).LazyIndent)
      (Reach.lazyIndentStep (Reach.init _ _ _) rfl)).1,
   (C6_stack_never_underflows ((NewScanner [chars ("a")] none []).LazyIndent)
      (Reach.lazyIndentStep (Reach.init _ _ _) rfl)).2 _ _ rfl⟩

theorem goodBody_append (a b : List BodyElem) :
    goodBody (a ++ b) = (goodBody a && goodBody b) := by
  induction a with
  | nil => simp [goodBody]
  | cons e r ih => simp [goodBody, ih, Bool.and_assoc]

theorem goodItems_append (a b : List (List BodyElem)) :
    goodItems (a ++ b) = (goodItems a && goodItems b) := by
  induction a with
  | nil => simp [goodItems]
  | cons i r ih => simp [goodItems, ih, Bool.and_assoc]

theorem goodElem_err (m : List Char) (p : Position) : goodElem (errBody m p) = true := rfl

theorem goodElem_bulletList (items : List (List BodyElem)) (hne : items ≠ [])
    (hg : goodItems items = true) : goodElem (.bulletList items) = true := by
  cases items with
  | nil => exact absurd rfl hne
  | cons i r => simp [goodElem, hg]

theorem goodElem_enumList (items : List (List BodyElem)) (et : EnumTypeGo)
    (p q : List Char) (fi : Nat) (hne : items ≠ [])
    (hg : goodItems items = true) : goodElem (.enumeratedList items et p q fi) = true := by
  cases items with
  | nil => exact absurd rfl hne
  | cons i r => simp [goodElem, hg]

theorem goodMState_appendBody (st : MState) (e : BodyElem) (pos : Position)
    (hst : goodMState st = true) (he : goodElem e = true) :
    goodMState (st.appendBody e pos) = true := by
  cases st with
  | structureModel b sa tr =>
    simp only [goodMState, Bool.and_eq_true] at hst
    by_cases htr : tr
    · simp [MState.appendBody, htr, goodMState, goodBody_append, hst.1, hst.2,
        goodBody, goodElem_err]
    · simp [MState.appendBody, htr, goodMState, goodBody_append, hst.1, hst.2,
        goodBody, he]
  | bodyCtx b =>
    simp only [goodMState] at hst
    simp [MState.appendBody, goodMState, goodBody_append, hst, goodBody, he]
  | blockQuotes done cur =>
    simp only [goodMState, Bool.and_eq_true] at hst
    cases cur with
    | none =>
      simp [MState.appendBody, goodMState, hst.1, goodBQ, goodBody, he]
    | some c =>
      have hc : goodBody c.quote = true := hst.2
      simp [MState.appendBody, goodMState, hst.1, goodBQ, goodBody_append, hc,
        goodBody, he]

theorem goodMState_appendMixed (st : MState) (e : BodyElem) (pos : Position)
    (hst : goodMState st = true) (he : goodElem e = true) :
    goodMState (st.appendMixed e pos) = true := by
  cases st with
  | structureModel b sa tr =>
    simp only [goodMState, Bool.and_eq_true] at hst
    by_cases htr : tr
    · simp [MState.appendMixed, htr, goodMState, goodBody_append, hst.1, hst.2,
        goodBody, he]
    · simp [MState.appendMixed, htr, goodMState, goodBody_append, hst.1, hst.2,
        goodBody, he]
  | bodyCtx b => exact goodMState_appendBody _ e pos hst he
  | blockQuotes done cur => exact goodMState_appendBody _ e pos hst he

theorem goodMState_blockQuoteBody (st : MState) (pos : Position)
    (hst : goodMState st = true) : goodMState (st.blockQuoteBody pos) = true := by
  cases st with
  | structureModel b sa tr =>
    simp only [goodMState, Bool.and_eq_true] at hst
    by_cases htr : tr
    · simp [MState.blockQuoteBody, htr, goodMState, goodBody_append, hst.1, hst.2,
        goodBody, goodElem_err]
    · simp [MState.blockQuoteBody, htr, goodMState, goodBody, goodElem, hst.1, hst.2]
  | bodyCtx b =>
    simp only [goodMState] at hst
    simp [MState.blockQuoteBody, goodMState, goodBody, goodElem, hst]
  | blockQuotes done cur =>
    simp only [goodMState, Bool.and_eq_true] at hst
    cases cur with
    | none =>
      simp [MState.blockQuoteBody, goodMState, hst.1, goodBQ, goodBody, goodElem]
    | some c =>
      have hc : goodBody c.quote = true := hst.2
      simp [MState.blockQuoteBody, goodMState, hst.1, goodBQ, goodBody, goodElem, hc]

theorem goodMState_appendAttribution (st st2 : MState) (t : List InlineElem)
    (h : st.appendAttribution t = .ok st2) (hst : goodMState st = true) :
    goodMState st2 = true := by
  cases st with
  | structureModel b sa tr => simp [MState.appendAttribution] at h
  | bodyCtx b => simp [MState.appendAttribution] at h
  | blockQuotes done cur =>
    cases cur with
    | none => simp [MState.appendAttribution] at h
    | some c =>
      simp only [MState.appendAttribution, PRes.ok.injEq] at h
      subst h
      simp only [goodMState, Bool.and_eq_true] at hst
      simp [goodMState, List.all_append, hst.1, goodBQ]
      exact hst.2

theorem goodMState_foldl_appendBody (quotes : List BodyElem) :
    ∀ (st : MState) (pos : Position), goodBody quotes = true → goodMState st = true →
    goodMState (quotes.foldl (fun acc e => acc.appendBody e pos) st) = true := by
  induction quotes with
  | nil => intro st pos _ hst; exact hst
  | cons q r ih =>
    intro st pos hq hst
    simp only [goodBody, Bool.and_eq_true] at hq
    exact ih _ pos hq.2 (goodMState_appendBody st q pos hst hq.1)

theorem goodBody_map_blockQuote (l : List BQuoteAcc) (h : l.all goodBQ = true) :
    goodBody (l.map (fun q => BodyElem.blockQuote q.quote q.attribution)) = true := by
  induction l with
  | nil => rfl
  | cons q r ih =>
    simp only [List.all_cons, Bool.and_eq_true] at h
    simp [goodBody, goodElem, ih h.2, h.1, goodBQ] at *
    exact h.1

theorem detectBullet_line (t : Token)
    (h : (detectBulletListItem t).1 ≠ Char.ofNat 0) : t.ty = .LINE := by
  by_cases hty : t.ty = .LINE
  · exact hty
  · rw [detectBulletListItem, if_pos hty] at h
    exact absurd rfl h

theorem detectEnum_line (t : Token)
    (h : (detectEnumeratedListItem t).1 ≠ EnumSeqGo.invalid) : t.ty = .LINE := by
  by_cases hty : t.ty = .LINE
  · exact hty
  · rw [detectEnumeratedListItem] at h
    rw [if_pos hty] at h
    exact absurd rfl h

theorem pushIndentChecked_read (s : Scanner) (n : Nat) :
    pushIndentChecked ((s.Read).2) n = .ok (((s.Read).2).PushIndent n) := rfl

theorem enumListNode_ok (items : List (List BodyElem)) (seq : EnumSeqGo)
    (marker : EnumMarkerGo) (start : Nat) (e : BodyElem)
    (h : enumListNode items seq marker start = .ok e) :
    ∃ et p q, e = .enumeratedList items et p q start := by
  cases seq <;> cases marker <;> simp [enumListNode] at h <;> exact ⟨_, _, _, h.symm⟩

theorem goodMState_ite (P : Prop) [Decidable P] (st st2 : MState)
    (h1 : goodMState st = true) (h2 : goodMState st2 = true) :
    goodMState (if P then st else st2) = true := by
  split <;> assumption

/-- Combined structural invariant of the parser loops: every returned list
element has at least one item and each parse preserves well-formedness of
the accumulated state. -/
theorem parserGood : ∀ f : Nat,
    (∀ endType st s st2 s2, modelParse f endType st s = .ok (st2, s2) →
       goodMState st = true → goodMState st2 = true) ∧
    (∀ endType s quotes s2, parseBlockQuotes f endType s = .ok (quotes, s2) →
       goodBody quotes = true) ∧
    (∀ endType s body s2, parseBody f endType s = .ok (body, s2) →
       goodBody body = true) ∧
    (∀ marker items s e s2, parseBulletList f marker items s = .ok (e, s2) →
       goodItems items = true →
       ∃ items2, e = BodyElem.bulletList items2 ∧ goodItems items2 = true ∧
         items.length ≤ items2.length) ∧
    (∀ marker items s e s2 t, parseBulletList f marker items s = .ok (e, s2) →
       goodItems items = true → s.peek = some t →
       (detectBulletListItem t).1 = marker → marker ≠ Char.ofNat 0 →
       ∃ items2, e = BodyElem.bulletList items2 ∧ goodItems items2 = true ∧
         items.length < items2.length) ∧
    (∀ seq marker start nextOrd items s e s2,
       parseEnumeratedList f seq marker start nextOrd items s = .ok (e, s2) →
       goodItems items = true →
       ∃ items2 et p q, e = BodyElem.enumeratedList items2 et p q start ∧
         goodItems items2 = true ∧ items.length ≤ items2.length) ∧
    (∀ seq marker start items s e s2 t,
       parseEnumeratedList f seq marker start start items s = .ok (e, s2) →
       goodItems items = true → s.peek = some t →
       (detectEnumeratedListItem t).1 = seq →
       (detectEnumeratedListItem t).2.1 = marker →
       (detectEnumeratedListItem t).2.2.1 = start →
       seq ≠ EnumSeqGo.invalid →
       ∃ items2 et p q, e = BodyElem.enumeratedList items2 et p q start ∧
         goodItems items2 = true ∧ items.length < items2.length) := by
  intro f
  induction f using Nat.strong_induction_on with
  | _ f ih =>
    cases f with
    | zero =>
      refine ⟨?_, ?_, ?_, ?_, ?_, ?_, ?_⟩ <;> intros <;>
        simp_all [modelParse, parseBlockQuotes, parseBody, parseBulletList,
          parseEnumeratedList]
    | succ g =>
      obtain ⟨ihM, ihBQ, ihB, ihBL, ihBLg, ihEL, ihELg⟩ := ih g (Nat.lt_succ_self g)
      have partM : ∀ endType st s st2 s2,
          modelParse (g + 1) endType st s = .ok (st2, s2) →
          goodMState st = true → goodMState st2 = true := by
        intro endType st s st2 s2 h hst
        simp only [modelParse] at h
        cases hsb : s.SkipBlanks (g + 1) with
        | none => rw [hsb] at h; simp at h
        | some s0 =>
          rw [hsb] at h
          dsimp only at h
          have hpk : (s0.Peek).2.peek = some (s0.Peek).1 := Peek_peek_eq s0
          generalize hgen : Scanner.Peek s0 = pr at h hpk
          obtain ⟨nextTok, sP⟩ := pr
          dsimp only at h hpk
          by_cases h1 : nextTok.ty = endType
          · rw [if_pos h1] at h
            simp only [PRes.ok.injEq, Prod.mk.injEq] at h
            exact h.1 ▸ hst
          · rw [if_neg h1] at h
            by_cases h2 : nextTok.ty = TokenType.EOF
            · rw [if_pos h2] at h
              simp only [PRes.ok.injEq, Prod.mk.injEq] at h
              exact h.1 ▸ goodMState_appendMixed st _ _ hst (goodElem_err _ _)
            · rw [if_neg h2] at h
              by_cases h3 : nextTok.ty = TokenType.INDENT
              · rw [if_pos h3] at h
                split at h
                · next quotes s' heq =>
                  exact ihM _ _ _ _ _ h
                    (goodMState_foldl_appendBody quotes st nextTok.position
                      (ihBQ _ _ _ _ heq) hst)
                · simp at h
                · simp at h
              · rw [if_neg h3] at h
                by_cases h4 : nextTok.ty = TokenType.LATE_INDENT
                · rw [if_pos h4] at h
                  exact ihM _ _ _ _ _ h (goodMState_blockQuoteBody st _ hst)
                · rw [if_neg h4] at h
                  by_cases h5 : (MState.attributionEnabled st = true ∧
                      nextTok.ty = TokenType.LINE ∧
                      List.take 2 nextTok.data = ['-', '-'] ∧
                      isSpaceGo (decodeRuneInList (List.drop 2 nextTok.data)).1 = true)
                  · rw [if_pos h5] at h
                    rw [pushIndentChecked_read] at h
                    dsimp only at h
                    split at h
                    · next attribution s' heq =>
                      try dsimp only at h
                      split at h
                      · next stA hat =>
                        refine ihM _ _ _ _ _ h ?_
                        refine goodMState_appendAttribution _ _ _ hat ?_
                        exact goodMState_ite _ _ _ hst
                          (goodMState_appendMixed st _ _ hst (goodElem_err _ _))
                      · simp at h
                      · simp at h
                    · simp at h
                    · simp at h
                  · rw [if_neg h5] at h
                    by_cases h6 : (detectBulletListItem nextTok).1 ≠ Char.ofNat 0
                    · rw [if_pos h6] at h
                      split at h
                      · next listElem s' heq =>
                        obtain ⟨items2, rfl, hgood, hlen⟩ :=
                          ihBLg _ _ _ _ _ nextTok heq rfl hpk rfl h6
                        have hne : items2 ≠ [] := by
                          intro hnil
                          rw [hnil] at hlen
                          simp at hlen
                        exact ihM _ _ _ _ _ h
                          (goodMState_appendBody st _ _ hst
                            (goodElem_bulletList items2 hne hgood))
                      · simp at h
                      · simp at h
                    · rw [if_neg h6] at h
                      by_cases h7 : (detectEnumeratedListItem nextTok).1 ≠ EnumSeqGo.invalid
                      · rw [if_pos h7] at h
                        split at h
                        · next listElem s' heq =>
                          obtain ⟨items2, et, p, q, rfl, hgood, hlen⟩ :=
                            ihELg _ _ _ _ _ _ _ nextTok heq rfl hpk rfl rfl rfl h7
                          have hne : items2 ≠ [] := by
                            intro hnil
                            rw [hnil] at hlen
                            simp at hlen
                          exact ihM _ _ _ _ _ h
                            (goodMState_appendBody st _ _ hst
                              (goodElem_enumList items2 et p q _ hne hgood))
                        · simp at h
                        · simp at h
                      · rw [if_neg h7] at h
                        by_cases h8 : nextTok.ty = TokenType.LINE
                        · rw [if_pos h8] at h
                          split at h
                          · next text s' heq =>
                            exact ihM _ _ _ _ _ h
                              (goodMState_appendBody st _ _ hst rfl)
                          · simp at h
                          · simp at h
                        · rw [if_neg h8] at h
                          exact ihM _ _ _ _ _ h
                            (goodMState_appendMixed st _ _ hst (goodElem_err _ _))
      refine ⟨partM, ?_, ?_, ?_, ?_, ?_, ?_⟩
      · -- parseBlockQuotes
        intro endType s quotes s2 h
        simp only [parseBlockQuotes] at h
        try dsimp only at h
        split at h
        · simp at h
        · split at h
          · next doneS curS sR hm =>
            simp only [PRes.ok.injEq, Prod.mk.injEq] at h
            obtain ⟨hq, _⟩ := h
            subst hq
            have hgood : goodMState (.blockQuotes doneS curS) = true :=
              ihM _ _ _ _ _ hm rfl
            simp only [goodMState, Bool.and_eq_true] at hgood
            refine goodBody_map_blockQuote _ ?_
            rw [List.all_append]
            cases curS with
            | none => simp [hgood.1]
            | some c =>
              simp [hgood.1, List.all_cons]
              exact hgood.2
          · simp at h
          · simp at h
          · simp at h
      · -- parseBody
        intro endType s body s2 h
        simp only [parseBody] at h
        split at h
        · next bodyS sR hm =>
          simp only [PRes.ok.injEq, Prod.mk.injEq] at h
          obtain ⟨hq, _⟩ := h
          subst hq
          have hgood : goodMState (.bodyCtx bodyS) = true := ihM _ _ _ _ _ hm rfl
          exact hgood
        · simp at h
        · simp at h
        · simp at h
      · -- parseBulletList, monotone
        intro marker items s e s2 h hgi
        simp only [parseBulletList] at h
        cases hsb : s.SkipBlanks (g + 1) with
        | none => rw [hsb] at h; simp at h
        | some s0 =>
          rw [hsb] at h
          dsimp only at h
          by_cases hm : (detectBulletListItem (s0.Peek).1).1 ≠ marker
          · rw [if_pos hm] at h
            simp only [PRes.ok.injEq, Prod.mk.injEq] at h
            exact ⟨items, h.1.symm, hgi, Nat.le_refl _⟩
          · rw [if_neg hm] at h
            rw [pushIndentChecked_read] at h
            try dsimp only at h
            split at h
            · next content s' heq =>
              have hc : goodBody content = true := ihB _ _ _ _ heq
              have hgi2 : goodItems (items ++ [content]) = true := by
                rw [goodItems_append]
                simp [goodItems, hgi, hc]
              obtain ⟨items2, rfl, hg2, hlen⟩ := ihBL _ _ _ _ _ h hgi2
              refine ⟨items2, rfl, hg2, ?_⟩
              rw [List.length_append] at hlen
              omega
            · simp at h
            · simp at h
      · -- parseBulletList, forced first item
        intro marker items s e s2 t h hgi hp hdm hm0
        have hline : t.ty = .LINE := by
          rw [← hdm] at hm0
          exact detectBullet_line t hm0
        have hbne : t.ty ≠ .BLANK := by rw [hline]; simp
        simp only [parseBulletList] at h
        rw [skipBlanks_peeked s t g hp hbne] at h
        dsimp only at h
        rw [Peek_of_peek s t hp] at h
        try dsimp only at h
        rw [hdm] at h
        rw [if_neg (fun hx => hx rfl)] at h
        rw [pushIndentChecked_read] at h
        try dsimp only at h
        split at h
        · next content s' heq =>
          have hc : goodBody content = true := ihB _ _ _ _ heq
          have hgi2 : goodItems (items ++ [content]) = true := by
            rw [goodItems_append]
            simp [goodItems, hgi, hc]
          obtain ⟨items2, rfl, hg2, hlen⟩ := ihBL _ _ _ _ _ h hgi2
          refine ⟨items2, rfl, hg2, ?_⟩
          rw [List.length_append] at hlen
          simp at hlen
          omega
        · simp at h
        · simp at h
      · -- parseEnumeratedList, monotone
        intro seq marker start nextOrd items s e s2 h hgi
        simp only [parseEnumeratedList] at h
        cases hsb : s.SkipBlanks (g + 1) with
        | none => rw [hsb] at h; simp at h
        | some s0 =>
          rw [hsb] at h
          dsimp only at h
          by_cases hmis : ((detectEnumeratedListItem (s0.Peek).1).1 ≠ seq ∨
              (detectEnumeratedListItem (s0.Peek).1).2.1 ≠ marker ∨
              (detectEnumeratedListItem (s0.Peek).1).2.2.1 ≠ nextOrd)
          · rw [if_pos hmis] at h
            split at h
            · next e2 hen =>
              simp only [PRes.ok.injEq, Prod.mk.injEq] at h
              obtain ⟨he, _⟩ := h
              subst he
              obtain ⟨et, p, q, rfl⟩ := enumListNode_ok _ _ _ _ _ hen
              exact ⟨items, et, p, q, rfl, hgi, Nat.le_refl _⟩
            · simp at h
            · simp at h
          · rw [if_neg hmis] at h
            rw [pushIndentChecked_read] at h
            try dsimp only at h
            split at h
            · next content s' heq =>
              have hc : goodBody content = true := ihB _ _ _ _ heq
              have hgi2 : goodItems (items ++ [content]) = true := by
                rw [goodItems_append]
                simp [goodItems, hgi, hc]
              obtain ⟨items2, et, p, q, rfl, hg2, hlen⟩ := ihEL _ _ _ _ _ _ _ _ h hgi2
              refine ⟨items2, et, p, q, rfl, hg2, ?_⟩
              rw [List.length_append] at hlen
              omega
            · simp at h
            · simp at h
      · -- parseEnumeratedList, forced first item
        intro seq marker start items s e s2 t h hgi hp hd1 hd2 hd3 hinv
        have hline : t.ty = .LINE := detectEnum_line t (by rw [hd1]; exact hinv)
        have hbne : t.ty ≠ .BLANK := by rw [hline]; simp
        simp only [parseEnumeratedList] at h
        rw [skipBlanks_peeked s t g hp hbne] at h
        dsimp only at h
        rw [Peek_of_peek s t hp] at h
        try dsimp only at h
        rw [hd1, hd2, hd3] at h
        rw [if_neg (by simp)] at h
        rw [pushIndentChecked_read] at h
        try dsimp only at h
        split at h
        · next content s' heq =>
          have hc : goodBody content = true := ihB _ _ _ _ heq
          have hgi2 : goodItems (items ++ [content]) = true := by
            rw [goodItems_append]
            simp [goodItems, hgi, hc]
          obtain ⟨items2, et, p, q, rfl, hg2, hlen⟩ := ihEL _ _ _ _ _ _ _ _ h hgi2
          refine ⟨items2, et, p, q, rfl, hg2, ?_⟩
          rw [List.length_append] at hlen
          simp at hlen
          omega
        · simp at h
        · simp at h

/-- C10: in every Fragment returned by ParseFragment, every BulletList and
every EnumeratedList contains at least one ListItem: the list parsers are
entered only when the pending token was already detected as a matching
marker, so an empty Items sequence never appears anywhere in the returned
tree (body or structure). -/
theorem C10_lists_never_empty (fuel : Nat) (input : List Char) (filename : List Char)
    (frag : Fragment) (h : ParseFragment fuel input filename = .ok frag) :
    goodBody frag.body = true ∧ goodBody frag.childElements = true := by
  unfold ParseFragment ParseFragmentTokens at h
  cases hps : parseStructureModel fuel .EOF (NewScanner (framedLines input) none filename) with
  | ok a =>
    obtain ⟨⟨b, sa⟩, sR⟩ := a
    rw [hps] at h
    simp only [PRes.ok.injEq] at h
    subst h
    cases fuel with
    | zero => simp [parseStructureModel] at hps
    | succ g =>
      simp only [parseStructureModel] at hps
      split at hps
      · next b2 sa2 tr sR2 hm =>
        simp only [PRes.ok.injEq, Prod.mk.injEq] at hps
        obtain ⟨⟨hb, hsa⟩, _⟩ := hps
        subst hb
        subst hsa
        have hg := (parserGood g).1 _ _ _ _ _ hm rfl
        simpa [goodMState, Bool.and_eq_true] using hg
      · simp at hps
      · simp at hps
      · simp at hps
  | panicked m =>
    rw [hps] at h
    simp at h
  | fuelOut =>
    rw [hps] at h
    simp at h

/-- Witness for C10 at a concrete input, discharging the hypothesis. -/
theorem C10_lists_never_empty_witness :
    goodBody [BodyElem.bulletList
      [[BodyElem.paragraph [InlineElem.charData (chars ("foo"))]]]] = true :=
  (C10_lists_never_empty 64 (chars ("* foo")) []
    { body := [BodyElem.bulletList
        [[BodyElem.paragraph [InlineElem.charData (chars ("foo"))]]]],
      childElements := [] } rfl).1

/-- C3: parsing `"1. foo\n2. bar\n(3) baz\n(5) pizza\n6) cheese"` yields
exactly four EnumeratedLists, all arabic, with prefix/suffix pairs
`("", "."), ("(", ")"), ("(", ")"), ("", ")")` and first indices 1, 3, 5, 6;
and, in general, the item loop of `parseEnumeratedList` ends the list as
soon as the next detected candidate differs in sequence kind, marker style
or consecutive ordinal, without consuming the mismatching token (it stays in
the lookahead buffer). -/
theorem C3_enumerated_list_runs :
    (PRes.map (fun fr => (scrubBody fr.body, fr.childElements))
      (ParseFragment 128 (chars ("1. foo\n2. bar\n(3) baz\n(5) pizza\n6) cheese")) []) =
      .ok (c3Expected, [])) ∧
    (∀ (fuel : Nat) (marker : EnumMarkerGo) (start nextOrd : Nat)
       (items : List (List BodyElem)) (s : Scanner) (t : Token),
       s.peek = some t → t.ty ≠ .BLANK → marker ≠ EnumMarkerGo.invalid →
       ((detectEnumeratedListItem t).1 ≠ EnumSeqGo.arabic ∨
        (detectEnumeratedListItem t).2.1 ≠ marker ∨
        (detectEnumeratedListItem t).2.2.1 ≠ nextOrd) →
       ∃ e, enumListNode items EnumSeqGo.arabic marker start = PRes.ok e ∧
         parseEnumeratedList (fuel + 1) EnumSeqGo.arabic marker start nextOrd items s =
           .ok (e, s)) := by
  constructor
  · rfl
  · intro fuel marker start nextOrd items s t hp hb hm hmis
    have hsb := skipBlanks_peeked s t fuel hp hb
    have hpk := Peek_of_peek s t hp
    rw [parseEnumeratedList, hsb]
    simp only [hpk, if_pos hmis]
    cases marker with
    | invalid => exact absurd rfl hm
    | period => exact ⟨_, rfl, rfl⟩
    | parens => exact ⟨_, rfl, rfl⟩
    | rparen => exact ⟨_, rfl, rfl⟩

/-- Witness for the general clause of C3 at a concrete state: the pending
token `"x"` is not an enumerated-list item, so a period-marker list expecting
ordinal 3 ends there with the token still peeked. -/
theorem C3_enumerated_list_runs_witness :
    ∃ e, enumListNode [[]] EnumSeqGo.arabic EnumMarkerGo.period 1 = PRes.ok e ∧
      parseEnumeratedList 5 EnumSeqGo.arabic EnumMarkerGo.period 1 3 [[]]
        { witnessScanner with
            peek := some { ty := .LINE, data := chars ("x"),
                           position := { line := 1, column := 1, filename := [] } } } =
        .ok (e, { witnessScanner with
                    peek := some { ty := .LINE, data := chars ("x"),
                                   position := { line := 1, column := 1, filename := [] } } }) :=
  (C3_enumerated_list_runs).2 4 EnumMarkerGo.period 1 3 [[]] _ _ rfl
    (by decide) (by decide) (Or.inr (Or.inr (by decide)))

/-- C5: Peek is idempotent — after one Peek, any further Peek returns the
identical token and state, the next Read returns that same token and merely
clears the lookahead buffer, and Peek changes the state only by
materializing the buffer through `next` (or not at all when a token is
already buffered). -/
theorem C5_peek_idempotent_readback (s : Scanner) :
    ((s.Peek).2.Peek = ((s.Peek).1, (s.Peek).2)) ∧
    ((s.Peek).2.Read = ((s.Peek).1, { (s.Peek).2 with peek := none })) ∧
    (∀ n, peekN n s = s.Peek) ∧
    (s.peek = none → s.Peek = ((s.next).1, { (s.next).2 with peek := some (s.next).1 })) ∧
    (∀ t, s.peek = some t → s.Peek = (t, s)) := by
  have hpp : (s.Peek).2.Peek = ((s.Peek).1, (s.Peek).2) :=
    Peek_of_peek _ _ (Peek_peek_eq s)
  refine ⟨hpp, ?_, ?_, ?_, ?_⟩
  · rw [Scanner.Read, hpp]
  · intro n
    induction n with
    | zero => rfl
    | succ n ih =>
      rw [peekN, ih, hpp]
  · intro h
    simp [Scanner.Peek, h]
  · intro t h
    exact Peek_of_peek s t h

/-- Witness for C5 at a concrete scanner, discharging the hypotheses. -/
theorem C5_peek_idempotent_readback_witness :
    ((witnessScanner.Peek).2.Peek = ((witnessScanner.Peek).1, (witnessScanner.Peek).2)) ∧
    (witnessScanner.Peek =
      ((witnessScanner.next).1,
       { (witnessScanner.next).2 with peek := some (witnessScanner.next).1 })) ∧
    (peekN 3 witnessScanner = witnessScanner.Peek) :=
  ⟨(C5_peek_idempotent_readback witnessScanner).1,
   (C5_peek_idempotent_readback witnessScanner).2.2.2.1 rfl,
   (C5_peek_idempotent_readback witnessScanner).2.2.1 3⟩

end GoRst
